import Mathlib

set_option maxHeartbeats 1000000
set_option maxRecDepth 8000

/-!
Shallow embedding of the Tetris game engine (Go sources `main.go`,
`constants.go`, and the geometry helpers file).  Machine integers are
modelled as `Nat`/`Int` (the Go code never overflows: coordinates stay
tiny), the board is a total function over `Fin`-bounded indices, loops
become structural recursion over the literal index lists the Go `for`
loops traverse, and the two random draws of `newPiece` are passed in as
explicit parameters.
-/

namespace Tetris

/-- Cell states, mirroring the Go `ShapeState` enum
(`EmptyState = 0`, `FallingState = 1`, `FixedState = 2`). -/
inductive ShapeState where
  | EmptyState
  | FallingState
  | FixedState
deriving DecidableEq, Repr

export ShapeState (EmptyState FallingState FixedState)

/-- `gameGridWidth = 10` from `constants.go`. -/
abbrev gameGridWidth : Nat := 10

/-- `gameGridHeight = 20` from `constants.go`. -/
abbrev gameGridHeight : Nat := 20

/-- One row of the board. -/
abbrev Row := Fin gameGridWidth → ShapeState

/-- `Board [gameGridHeight][gameGridWidth]ShapeState` from `main.go`. -/
abbrev Board := Fin gameGridHeight → Fin gameGridWidth → ShapeState

/-- The shape table from `constants.go` (7 kinds, 4 rotation variants each). -/
def shapes : List (List Nat) :=
  [[0x0F00, 0x2222, 0x0F00, 0x2222],
   [0x6600, 0x6600, 0x6600, 0x6600],
   [0x4C40, 0x4E00, 0xC880, 0xE400],
   [0x06C0, 0x8C40, 0x6C00, 0x4620],
   [0x0C60, 0x4C80, 0xC600, 0x2640],
   [0x44C0, 0x8E00, 0xE880, 0xC440],
   [0x4460, 0x0E80, 0xC440, 0x2E00]]

/-- `shapes[s][p]` (all call sites in the Go code have `s`, `p` in range). -/
def shapesAt (s p : Nat) : Nat := (shapes.getD s []).getD p 0

/-- `getTopOffset` from the geometry helpers: the Go loop
`for i := 3; i >= 0; i--` checking `(shape>>(i*4))&0xF`, returning `3-i`
at the first nonzero nibble, unrolled. -/
def getTopOffset (shape : Nat) : Nat :=
  if (shape >>> 12) &&& 0xF ≠ 0 then 0
  else if (shape >>> 8) &&& 0xF ≠ 0 then 1
  else if (shape >>> 4) &&& 0xF ≠ 0 then 2
  else if (shape >>> 0) &&& 0xF ≠ 0 then 3
  else 0

/-- `findFirstNonEmptyColumn`: fold over `i = 0..15` of the Go loop body
`if shape&(1<<(15-i)) != 0 { if columnIndex > i%4 { columnIndex = i%4 } }`
starting from `columnIndex = 4`. -/
def findFirstNonEmptyColumn (shape : Nat) : Nat :=
  (List.range 16).foldl
    (fun columnIndex i =>
      if shape.testBit (15 - i) then
        if columnIndex > i % 4 then i % 4 else columnIndex
      else columnIndex) 4

/-- `getShapeDimensions`: fold over `i = 0..15` of the Go loop body tracking
`(minX, maxX)` of `i%4` over bits `shape&(1<<i)`, starting from `(4, 0)`;
the result is `maxX - minX + 1` (a Go `int`, hence `Int` here). -/
def getShapeDimensions (shape : Nat) : Int :=
  let p := (List.range 16).foldl
    (fun (p : Int × Int) i =>
      if shape.testBit i then
        ((if (i % 4 : Int) < p.1 then (i % 4 : Int) else p.1),
         (if (i % 4 : Int) > p.2 then (i % 4 : Int) else p.2))
      else p) (4, 0)
  p.2 - p.1 + 1

/-- `isWithinBoard` from the geometry helpers file. -/
def isWithinBoard (x y : Int) : Bool :=
  decide (0 ≤ x ∧ x < (gameGridWidth : Int) ∧ 0 ≤ y ∧ y < (gameGridHeight : Int))

/-- Column offset `i % 4` of loop index `i`, as the `Int` the Go code adds
to the piece origin. -/
def colOf (i : Nat) : Int := ((i % 4 : Nat) : Int)

/-- Row offset `i / 4` of loop index `i`, as an `Int`. -/
def rowOf (i : Nat) : Int := ((i / 4 : Nat) : Int)

/-- Write one board cell (already known to be in bounds). -/
def writeCell (b : Board) (r : Fin gameGridHeight) (c : Fin gameGridWidth)
    (v : ShapeState) : Board :=
  fun y x => if y = r ∧ x = c then v else b y x

/-- Read `g.board[yy][xx]`; out of bounds reads never happen in the source
(they are always guarded), so the out-of-bounds value is a harmless default. -/
def boardGet (b : Board) (x y : Int) : ShapeState :=
  if h : 0 ≤ x ∧ x < (gameGridWidth : Int) ∧ 0 ≤ y ∧ y < (gameGridHeight : Int) then
    b ⟨y.toNat, by omega⟩ ⟨x.toNat, by omega⟩
  else EmptyState

/-- Body of `fixPiece`, iterating over the remaining loop indices. -/
def fixPieceGo (shape : Nat) (x y : Int) (val : ShapeState) :
    Board → List Nat → Board
  | b, [] => b
  | b, i :: rest =>
    fixPieceGo shape x y val
      (if shape.testBit (15 - i) then
        if h : 0 ≤ x + colOf i ∧ x + colOf i < (gameGridWidth : Int) ∧
               0 ≤ y + rowOf i ∧ y + rowOf i < (gameGridHeight : Int) then
          writeCell b ⟨(y + rowOf i).toNat, by omega⟩ ⟨(x + colOf i).toNat, by omega⟩ val
        else b
      else b) rest

/-- `fixPiece(shape, x, y, val)` from `main.go`: stamp the mask's footprint,
silently skipping out-of-bounds cells. -/
def fixPiece (b : Board) (shape : Nat) (x y : Int) (val : ShapeState) : Board :=
  fixPieceGo shape x y val b (List.range 16)

/-- Body of `hasCollision`, iterating over the remaining loop indices, with
the Go early `return true`. -/
def hasCollisionGo (b : Board) (shape : Nat) (x y : Int) : List Nat → Bool
  | [] => false
  | i :: rest =>
    if shape.testBit (15 - i) &&
       (!isWithinBoard (x + colOf i) (y + rowOf i) ||
        (boardGet b (x + colOf i) (y + rowOf i) == FixedState)) then
      true
    else hasCollisionGo b shape x y rest

/-- `hasCollision` from `main.go`, over an explicit mask (the Go method
resolves `shapes[g.piece.Shape.shape][pos]` at the call site; see
`gameHasCollision` below for the method form). -/
def hasCollision (b : Board) (shape : Nat) (x y : Int) : Bool :=
  hasCollisionGo b shape x y (List.range 16)

/-- The all-`EmptyState` row. -/
def emptyRow : Row := fun _ => EmptyState

/-- Row `y` of the board; rows are only ever read at `y < gameGridHeight`
in the source, the default is harmless. -/
def rowAt (b : Board) (y : Nat) : Row :=
  if h : y < gameGridHeight then b ⟨y, h⟩ else emptyRow

/-- Overwrite row `i` (the Go inner loop `for xx` copies every cell, which
for function-rows is exactly a row assignment). -/
def setRow (b : Board) (i : Nat) (r : Row) : Board :=
  fun y x => if (y : Nat) = i then r x else b y x

/-- Fullness of one row: the Go inner loop sets `full = false` on the first
cell `!= FixedState`, i.e. the row is full iff no cell differs from
`FixedState`. -/
def rowFullRow (r : Row) : Bool :=
  !((List.finRange gameGridWidth).any fun x => !(r x == FixedState))

/-- Fullness test of board row `y`. -/
def rowFullB (b : Board) (y : Nat) : Bool := rowFullRow (rowAt b y)

/-- The Go shift loop `for yy := y; yy > 0; yy-- { board[yy] = board[yy-1] }`:
iteration `yy = k+1` copies row `k` into row `k+1`, then continues with `k`. -/
def copyRowsDown (b : Board) : Nat → Board
  | 0 => b
  | k + 1 => copyRowsDown (setRow b (k + 1) (rowAt b k)) k

/-- Clearing a full row `y` in `removeFullLines`: shift rows `[0, y)` down
one, then clear the top row. -/
def clearRowAt (b : Board) (y : Nat) : Board :=
  setRow (copyRowsDown b y) 0 emptyRow

/-- Scan loop of `removeFullLines` over the remaining row indices. -/
def removeFullLinesGo : Board → List Nat → Board
  | b, [] => b
  | b, y :: rest =>
    removeFullLinesGo (if rowFullB b y then clearRowAt b y else b) rest

/-- `removeFullLines` from `main.go`: scan rows `0..gameGridHeight-1`
top to bottom, clearing each full row as it is found. -/
def removeFullLines (b : Board) : Board :=
  removeFullLinesGo b (List.range gameGridHeight)

/-- Modelled from the spec: `clearFullRows()` as worded in §4.2 — scan top
to bottom, and after clearing a full row do NOT advance the scan index;
re-check the same index before continuing.  The re-check loop is driven by
fuel; `2 * gameGridHeight` steps always suffice (each step either advances
the index or removes one of the at most `gameGridHeight` full rows), which
the refinement proof below establishes. -/
def clearFullRowsSpecGo : Board → Nat → Nat → Board
  | b, _, 0 => b
  | b, y, fuel + 1 =>
    if y < gameGridHeight then
      if rowFullB b y then clearFullRowsSpecGo (clearRowAt b y) y fuel
      else clearFullRowsSpecGo b (y + 1) fuel
    else b

/-- Modelled from the spec: top-level `clearFullRows()` with the re-check
scan policy. -/
def clearFullRowsSpec (b : Board) : Board :=
  clearFullRowsSpecGo b 0 (2 * gameGridHeight)

/-- The active piece.  Flattened from the Go
`Piece{ Shape{shape,pos,state}, Position{x,y,oldX,oldY},
PreviousShape{shape,pos} }` (the `state` field of `PreviousShape` is never
read or written in the source and is dropped). -/
structure Piece where
  shape : Nat
  pos : Nat
  state : ShapeState
  x : Int
  y : Int
  oldX : Int
  oldY : Int
  prevShape : Nat
  prevPos : Nat
deriving DecidableEq, Repr

/-- The game state: the active piece, the board and the cancellation flag
(`g.cancel()` cancels the context; the screen and lock are external I/O and
synchronisation glue, outside the engine core). -/
structure Game where
  piece : Piece
  board : Board
  cancelled : Bool
deriving DecidableEq

/-- `newPiece` from `main.go`.  `rand.Intn(1)` always returns `0`, so the
shape index is `0`; the `rand.Intn(4)` draw for the rotation variant is the
explicit parameter `rndPos`. -/
def newPieceP (rndPos : Nat) : Piece :=
  { shape := 0
    pos := rndPos
    state := FallingState
    x := -(findFirstNonEmptyColumn (shapesAt 0 rndPos) : Int)
    y := -(getTopOffset (shapesAt 0 rndPos) : Int)
    oldX := -(findFirstNonEmptyColumn (shapesAt 0 rndPos) : Int)
    oldY := -(getTopOffset (shapesAt 0 rndPos) : Int)
    prevShape := 0
    prevPos := rndPos }

/-- The Go method `g.hasCollision(x, y, pos)`, which reads the mask from
`shapes[g.piece.Shape.shape][pos]`. -/
def gameHasCollision (g : Game) (x y : Int) (pos : Nat) : Bool :=
  hasCollision g.board (shapesAt g.piece.shape pos) x y

/-- `moveShape` from `main.go`: erase the previous footprint (value `0`
is `EmptyState`), stamp the current one, and synchronise the committed
fields. -/
def moveShape (g : Game) : Game :=
  let b1 := fixPiece g.board (shapesAt g.piece.prevShape g.piece.prevPos)
              g.piece.oldX g.piece.oldY EmptyState
  let b2 := fixPiece b1 (shapesAt g.piece.shape g.piece.pos)
              g.piece.x g.piece.y g.piece.state
  { g with
    board := b2
    piece := { g.piece with
      oldX := g.piece.x
      oldY := g.piece.y
      prevShape := g.piece.shape
      prevPos := g.piece.pos } }

/-- `tick` from `main.go`; screen clearing/drawing is external rendering,
the engine part is `moveShape` followed by `removeFullLines`. -/
def tick (g : Game) : Game :=
  let g1 := moveShape g
  { g1 with board := removeFullLines g1.board }

/-- `moveLeft` from `main.go`. -/
def moveLeft (g : Game) : Game :=
  tick
    (if 0 ≤ g.piece.x + (findFirstNonEmptyColumn (shapesAt g.piece.shape g.piece.pos) : Int) - 1 ∧
        gameHasCollision g (g.piece.x - 1) g.piece.y g.piece.pos = false then
      { g with piece := { g.piece with x := g.piece.x - 1 } }
    else g)

/-- `moveRight` from `main.go`. -/
def moveRight (g : Game) : Game :=
  tick
    (if g.piece.x + (findFirstNonEmptyColumn (shapesAt g.piece.shape g.piece.pos) : Int) +
          getShapeDimensions (shapesAt g.piece.shape g.piece.pos) < (gameGridWidth : Int) ∧
        gameHasCollision g (g.piece.x + 1) g.piece.y g.piece.pos = false then
      { g with piece := { g.piece with x := g.piece.x + 1 } }
    else g)

/-- `moveDown` from `main.go`, with the `rand.Intn(4)` draw of the `newPiece`
call passed as `rndPos`. -/
def moveDown (g : Game) (rndPos : Nat) : Game :=
  if gameHasCollision g g.piece.x (g.piece.y + 1) g.piece.pos = true then
    if g.piece.y = -(getTopOffset (shapesAt g.piece.shape g.piece.pos) : Int) then
      { g with cancelled := true }
    else
      let g1 : Game := { g with piece := { g.piece with state := FixedState } }
      let g2 : Game :=
        if g1.piece.state = FixedState then
          { tick g1 with piece := newPieceP rndPos }
        else g1
      tick g2
  else
    let g1 : Game :=
      { g with piece := { g.piece with state := FallingState, y := g.piece.y + 1 } }
    let g2 : Game :=
      if g1.piece.state = FixedState then
        { tick g1 with piece := newPieceP rndPos }
      else g1
    tick g2

/-- The wall-kick loop of `rotate`:
`for x + leftCol(mask) >= 0 && hasCollision(x, y, pos) { x-- }`.
The fuel is `(x + leftCol(mask) + 1).toNat` at entry, so fuel `0` holds
exactly when `x + leftCol(mask) < 0`: with fuel `n+1` the first conjunct of
the Go guard is true and only the collision test remains. -/
def kickAux (b : Board) (mask : Nat) (y : Int) : Nat → Int → Int
  | 0, x => x
  | n + 1, x => if hasCollision b mask x y then kickAux b mask y n (x - 1) else x

/-- Mask of the current rotation variant. -/
def rotateCurMask (g : Game) : Nat := shapesAt g.piece.shape g.piece.pos

/-- `(g.piece.Shape.pos + 1) % 4` — the candidate rotation index. -/
def rotateNewPosIdx (g : Game) : Nat := (g.piece.pos + 1) % 4

/-- Mask of the candidate rotation variant. -/
def rotateNewMask (g : Game) : Nat := shapesAt g.piece.shape (rotateNewPosIdx g)

/-- `startX` of `rotate`. -/
def rotateStartX (g : Game) : Int :=
  g.piece.x + (findFirstNonEmptyColumn (rotateCurMask g) : Int)

/-- `startY` of `rotate`. -/
def rotateStartY (g : Game) : Int :=
  g.piece.y + (getTopOffset (rotateCurMask g) : Int)

/-- The pre-kick x of the rotated piece. -/
def rotateNewX (g : Game) : Int :=
  rotateStartX g - (findFirstNonEmptyColumn (rotateNewMask g) : Int)

/-- The y of the rotated piece. -/
def rotateNewY (g : Game) : Int :=
  rotateStartY g - (getTopOffset (rotateNewMask g) : Int)

/-- The x of the rotated piece after the wall-kick loop. -/
def rotateKickedX (g : Game) : Int :=
  kickAux g.board (rotateNewMask g) (rotateNewY g)
    (rotateNewX g + (findFirstNonEmptyColumn (rotateNewMask g) : Int) + 1).toNat
    (rotateNewX g)

/-- `rotate` from `main.go`. -/
def rotate (g : Game) : Game :=
  let gTry : Game :=
    { g with piece := { g.piece with
        pos := rotateNewPosIdx g
        x := rotateKickedX g
        y := rotateNewY g } }
  let gDone : Game :=
    if hasCollision g.board (rotateNewMask g) (rotateKickedX g) (rotateNewY g) = true then
      { gTry with piece := { gTry.piece with
          pos := g.piece.prevPos
          x := g.piece.oldX
          y := g.piece.oldY } }
    else moveShape gTry
  tick gDone

/-- Go-panic-aware board read: `none` models an out-of-range index fault. -/
def boardGetOpt (b : Board) (x y : Int) : Option ShapeState :=
  if h : 0 ≤ x ∧ x < (gameGridWidth : Int) ∧ 0 ≤ y ∧ y < (gameGridHeight : Int) then
    some (b ⟨y.toNat, by omega⟩ ⟨x.toNat, by omega⟩)
  else none

/-- Go-panic-aware board write: `none` models an out-of-range index fault. -/
def boardSetOpt (b : Board) (x y : Int) (v : ShapeState) : Option Board :=
  if h : 0 ≤ x ∧ x < (gameGridWidth : Int) ∧ 0 ≤ y ∧ y < (gameGridHeight : Int) then
    some (writeCell b ⟨y.toNat, by omega⟩ ⟨x.toNat, by omega⟩ v)
  else none

/-- `fixPiece` with fallible array indexing: the bounds guard is the Go
guard, the write is the fallible raw access. -/
def fixPieceOptGo (shape : Nat) (x y : Int) (val : ShapeState) :
    Board → List Nat → Option Board
  | b, [] => some b
  | b, i :: rest =>
    if shape.testBit (15 - i) then
      if 0 ≤ x + colOf i ∧ x + colOf i < (gameGridWidth : Int) ∧
         0 ≤ y + rowOf i ∧ y + rowOf i < (gameGridHeight : Int) then
        match boardSetOpt b (x + colOf i) (y + rowOf i) val with
        | none => none
        | some b2 => fixPieceOptGo shape x y val b2 rest
      else fixPieceOptGo shape x y val b rest
    else fixPieceOptGo shape x y val b rest

/-- Fallible `fixPiece`. -/
def fixPieceOpt (b : Board) (shape : Nat) (x y : Int) (val : ShapeState) :
    Option Board :=
  fixPieceOptGo shape x y val b (List.range 16)

/-- `hasCollision` with fallible array indexing; the `isWithinBoard` guard
short-circuits (Go `||`) before the raw access. -/
def hasCollisionOptGo (b : Board) (shape : Nat) (x y : Int) : List Nat → Option Bool
  | [] => some false
  | i :: rest =>
    if shape.testBit (15 - i) then
      if !isWithinBoard (x + colOf i) (y + rowOf i) then some true
      else
        match boardGetOpt b (x + colOf i) (y + rowOf i) with
        | none => none
        | some s => if s == FixedState then some true else hasCollisionOptGo b shape x y rest
    else hasCollisionOptGo b shape x y rest

/-- Fallible `hasCollision`. -/
def hasCollisionOpt (b : Board) (shape : Nat) (x y : Int) : Option Bool :=
  hasCollisionOptGo b shape x y (List.range 16)

/-- The committed-piece state: old position and previous shape fields agree
with the current ones (established by `moveShape` at the end of every
command). -/
def committed (g : Game) : Prop :=
  g.piece.oldX = g.piece.x ∧ g.piece.oldY = g.piece.y ∧
  g.piece.prevShape = g.piece.shape ∧ g.piece.prevPos = g.piece.pos

/-- Number of full rows of a board. -/
def countFull (b : Board) : Nat :=
  (List.range gameGridHeight).countP fun y => rowFullB b y

/-- A row with at least one non-`EmptyState` cell. -/
def rowOcc (r : Row) : Bool :=
  (List.finRange gameGridWidth).any fun x => !(r x == EmptyState)

/-- Stack height measured as the number of non-empty rows. -/
def stackHeight (b : Board) : Nat :=
  (List.range gameGridHeight).countP fun y => rowOcc (rowAt b y)

/-- Cell `(c, r)` of the 4×4 box is occupied in `mask`: the engine's
bit-to-cell mapping sends bit `15 - i` to cell `(i % 4, i / 4)`, so cell
`(c, r)` is bit `15 - (4*r + c)`. -/
def cellOccupied (mask c r : Nat) : Bool := mask.testBit (15 - (4 * r + c))

/-! ### Basic facts about `tick` and the committed-piece invariant -/

theorem tick_piece_x (g : Game) : (tick g).piece.x = g.piece.x := rfl

theorem tick_piece_y (g : Game) : (tick g).piece.y = g.piece.y := rfl

theorem tick_piece_pos (g : Game) : (tick g).piece.pos = g.piece.pos := rfl

theorem committed_tick (g : Game) : committed (tick g) := ⟨rfl, rfl, rfl, rfl⟩

/-- Claim C3: when the gravity step finds a downward collision and the piece
still sits at its spawn height `-topOffset(mask)`, `moveDown` only sets the
cancellation flag: the board and the piece are left bit-for-bit unchanged,
and no lock, line clear, or spawn happens. -/
theorem claim3_moveDown_gameOver (g : Game) (rndPos : Nat)
    (hc : gameHasCollision g g.piece.x (g.piece.y + 1) g.piece.pos = true)
    (hy : g.piece.y = -(getTopOffset (shapesAt g.piece.shape g.piece.pos) : Int)) :
    moveDown g rndPos = { g with cancelled := true } ∧
    (moveDown g rndPos).board = g.board ∧ (moveDown g rndPos).piece = g.piece ∧
    (moveDown g rndPos).cancelled = true := by
  have h : moveDown g rndPos = { g with cancelled := true } := by
    unfold moveDown
    rw [if_pos hc, if_pos hy]
  exact ⟨h, by rw [h], by rw [h], by rw [h]⟩

/-- Claim C9: every public command handler ends in `tick`, whose `moveShape`
synchronises `oldX`/`oldY`/`PreviousShape` with the current piece, so after
`moveLeft`, `moveRight`, `rotate`, and `moveDown` (except on the game-over
path) the piece is in the committed state. -/
theorem claim9_handlers_committed (g : Game) (rndPos : Nat) :
    committed (moveLeft g) ∧ committed (moveRight g) ∧ committed (rotate g) ∧
    (¬(gameHasCollision g g.piece.x (g.piece.y + 1) g.piece.pos = true ∧
        g.piece.y = -(getTopOffset (shapesAt g.piece.shape g.piece.pos) : Int)) →
      committed (moveDown g rndPos)) := by
  refine ⟨committed_tick _, committed_tick _, committed_tick _, fun hno => ?_⟩
  unfold moveDown
  by_cases hc : gameHasCollision g g.piece.x (g.piece.y + 1) g.piece.pos = true
  · rw [if_pos hc]
    have hy : ¬(g.piece.y = -(getTopOffset (shapesAt g.piece.shape g.piece.pos) : Int)) :=
      fun h => hno ⟨hc, h⟩
    rw [if_neg hy]
    exact committed_tick _
  · rw [if_neg hc]
    exact committed_tick _

/-- Claim C2: starting from a committed state (the invariant of C9), if the
leftward wall-kick search of `rotate` ends with the candidate still
colliding, the revert from `PreviousShape.pos`/`oldX`/`oldY` restores the
rotation index, `x`, and `y` exactly, and `rotate` collapses to the plain
commit pass `tick` — no effect on the board beyond what `tick` does on
every command. -/
theorem claim2_rotate_fail_restores (g : Game) (hcom : committed g)
    (hfail : hasCollision g.board (rotateNewMask g) (rotateKickedX g) (rotateNewY g) = true) :
    rotate g = tick g ∧ (rotate g).piece.pos = g.piece.pos ∧
    (rotate g).piece.x = g.piece.x ∧ (rotate g).piece.y = g.piece.y := by
  have hg : rotate g = tick g := by
    obtain ⟨⟨ps, pp, pst, px, py, pox, poy, pps, ppp⟩, bd, cc⟩ := g
    obtain ⟨h1, h2, h3, h4⟩ := hcom
    simp only at h1 h2 h3 h4
    subst h1
    subst h2
    subst h3
    subst h4
    simp only [rotate]
    rw [if_pos hfail]
  exact ⟨hg, by rw [hg]; rfl, by rw [hg]; rfl, by rw [hg]; rfl⟩

/-- Claim C6: under the in-bounds precondition, `moveLeft` never pushes the
piece's leftmost solid column below `0` and `moveRight` never pushes its
right edge past `gameGridWidth`; when the guard fails each is a no-op on
`x`. -/
theorem claim6_move_bounds (g : Game)
    (hL : 0 ≤ g.piece.x + (findFirstNonEmptyColumn (shapesAt g.piece.shape g.piece.pos) : Int))
    (hR : g.piece.x + (findFirstNonEmptyColumn (shapesAt g.piece.shape g.piece.pos) : Int) +
          getShapeDimensions (shapesAt g.piece.shape g.piece.pos) ≤ (gameGridWidth : Int)) :
    0 ≤ (moveLeft g).piece.x +
        (findFirstNonEmptyColumn (shapesAt g.piece.shape g.piece.pos) : Int) ∧
    (moveRight g).piece.x +
        (findFirstNonEmptyColumn (shapesAt g.piece.shape g.piece.pos) : Int) +
        getShapeDimensions (shapesAt g.piece.shape g.piece.pos) ≤ (gameGridWidth : Int) ∧
    (¬(0 ≤ g.piece.x + (findFirstNonEmptyColumn (shapesAt g.piece.shape g.piece.pos) : Int) - 1 ∧
        gameHasCollision g (g.piece.x - 1) g.piece.y g.piece.pos = false) →
      (moveLeft g).piece.x = g.piece.x) ∧
    (¬(g.piece.x + (findFirstNonEmptyColumn (shapesAt g.piece.shape g.piece.pos) : Int) +
          getShapeDimensions (shapesAt g.piece.shape g.piece.pos) < (gameGridWidth : Int) ∧
        gameHasCollision g (g.piece.x + 1) g.piece.y g.piece.pos = false) →
      (moveRight g).piece.x = g.piece.x) := by
  have hml : ∀ h : Game, (moveLeft h).piece.x =
      (if 0 ≤ h.piece.x + (findFirstNonEmptyColumn (shapesAt h.piece.shape h.piece.pos) : Int) - 1 ∧
          gameHasCollision h (h.piece.x - 1) h.piece.y h.piece.pos = false then
        h.piece.x - 1 else h.piece.x) := by
    intro h
    unfold moveLeft
    by_cases hc : 0 ≤ h.piece.x +
        (findFirstNonEmptyColumn (shapesAt h.piece.shape h.piece.pos) : Int) - 1 ∧
        gameHasCollision h (h.piece.x - 1) h.piece.y h.piece.pos = false
    · rw [if_pos hc, if_pos hc]
      exact tick_piece_x _
    · rw [if_neg hc, if_neg hc]
      exact tick_piece_x _
  have hmr : ∀ h : Game, (moveRight h).piece.x =
      (if h.piece.x + (findFirstNonEmptyColumn (shapesAt h.piece.shape h.piece.pos) : Int) +
            getShapeDimensions (shapesAt h.piece.shape h.piece.pos) < (gameGridWidth : Int) ∧
          gameHasCollision h (h.piece.x + 1) h.piece.y h.piece.pos = false then
        h.piece.x + 1 else h.piece.x) := by
    intro h
    unfold moveRight
    by_cases hc : h.piece.x + (findFirstNonEmptyColumn (shapesAt h.piece.shape h.piece.pos) : Int) +
          getShapeDimensions (shapesAt h.piece.shape h.piece.pos) < (gameGridWidth : Int) ∧
        gameHasCollision h (h.piece.x + 1) h.piece.y h.piece.pos = false
    · rw [if_pos hc, if_pos hc]
      exact tick_piece_x _
    · rw [if_neg hc, if_neg hc]
      exact tick_piece_x _
  refine ⟨?_, ?_, ?_, ?_⟩
  · rw [hml g]
    split
    · omega
    · omega
  · rw [hmr g]
    split
    · omega
    · omega
  · intro hno
    rw [hml g, if_neg hno]
  · intro hno
    rw [hmr g, if_neg hno]

/-! ### Index/cell bridging for the 16-bit masks -/

theorem range16_exists_iff {P : Nat → Prop} :
    (∃ i ∈ List.range 16, P i) ↔ ∃ c < 4, ∃ r < 4, P (4 * r + c) := by
  constructor
  · rintro ⟨i, hi, hp⟩
    rw [List.mem_range] at hi
    refine ⟨i % 4, by omega, i / 4, by omega, ?_⟩
    have h4 : 4 * (i / 4) + i % 4 = i := by omega
    rw [h4]
    exact hp
  · rintro ⟨c, hc, r, hr, hp⟩
    exact ⟨4 * r + c, by rw [List.mem_range]; omega, hp⟩

theorem colOf_cell {c r : Nat} (hc : c < 4) : colOf (4 * r + c) = (c : Int) := by
  unfold colOf
  congr 1
  omega

theorem rowOf_cell {c r : Nat} (hc : c < 4) (_hr : r < 4) : rowOf (4 * r + c) = (r : Int) := by
  unfold rowOf
  congr 1
  omega

/-! ### Claim C4: characterisation of `hasCollision` -/

theorem hasCollisionGo_eq_any (b : Board) (shape : Nat) (x y : Int) :
    ∀ L : List Nat, hasCollisionGo b shape x y L =
      L.any fun i => shape.testBit (15 - i) &&
        (!isWithinBoard (x + colOf i) (y + rowOf i) ||
         (boardGet b (x + colOf i) (y + rowOf i) == FixedState))
  | [] => rfl
  | i :: rest => by
    rw [List.any_cons, ← hasCollisionGo_eq_any b shape x y rest]
    have hcons : hasCollisionGo b shape x y (i :: rest) =
        if (shape.testBit (15 - i) &&
            (!isWithinBoard (x + colOf i) (y + rowOf i) ||
             (boardGet b (x + colOf i) (y + rowOf i) == FixedState))) = true then true
        else hasCollisionGo b shape x y rest := rfl
    rw [hcons]
    cases hcond : (shape.testBit (15 - i) &&
        (!isWithinBoard (x + colOf i) (y + rowOf i) ||
         (boardGet b (x + colOf i) (y + rowOf i) == FixedState))) with
    | true => simp
    | false => simp

/-- Claim C4: `hasCollision` returns `true` iff some occupied cell of the
mask lands out of bounds or on a `FixedState` board cell; `FallingState`
cells never block (the board state is compared with `FixedState` only), and
the function is pure (it is a Lean function of the board). -/
theorem claim4_hasCollision_iff (b : Board) (mask : Nat) (x y : Int) :
    hasCollision b mask x y = true ↔
    ∃ c < 4, ∃ r < 4, cellOccupied mask c r = true ∧
      (¬(0 ≤ x + (c : Int) ∧ x + (c : Int) < (gameGridWidth : Int) ∧
         0 ≤ y + (r : Int) ∧ y + (r : Int) < (gameGridHeight : Int)) ∨
       boardGet b (x + (c : Int)) (y + (r : Int)) = FixedState) := by
  unfold hasCollision
  rw [hasCollisionGo_eq_any, List.any_eq_true]
  rw [show (∃ i ∈ List.range 16, (mask.testBit (15 - i) &&
        (!isWithinBoard (x + colOf i) (y + rowOf i) ||
         (boardGet b (x + colOf i) (y + rowOf i) == FixedState))) = true) ↔
      ∃ c < 4, ∃ r < 4, (mask.testBit (15 - (4 * r + c)) &&
        (!isWithinBoard (x + colOf (4 * r + c)) (y + rowOf (4 * r + c)) ||
         (boardGet b (x + colOf (4 * r + c)) (y + rowOf (4 * r + c)) == FixedState))) = true
      from range16_exists_iff]
  constructor
  · rintro ⟨c, hc, r, hr, hp⟩
    rw [colOf_cell hc, rowOf_cell hc hr] at hp
    simp only [Bool.and_eq_true, Bool.or_eq_true, Bool.not_eq_eq_eq_not, Bool.not_true,
      beq_iff_eq, isWithinBoard, decide_eq_false_iff_not] at hp
    exact ⟨c, hc, r, hr, hp.1, hp.2⟩
  · rintro ⟨c, hc, r, hr, hocc, hcond⟩
    refine ⟨c, hc, r, hr, ?_⟩
    rw [colOf_cell hc, rowOf_cell hc hr]
    simp only [Bool.and_eq_true, Bool.or_eq_true, Bool.not_eq_eq_eq_not, Bool.not_true,
      beq_iff_eq, isWithinBoard, decide_eq_false_iff_not]
    exact ⟨hocc, hcond⟩

/-! ### Claim C8: characterisation of `fixPiece` -/

theorem fixPieceGo_cell (shape : Nat) (x y : Int) (val : ShapeState) :
    ∀ (L : List Nat) (b : Board) (rr : Fin gameGridHeight) (cc : Fin gameGridWidth),
      fixPieceGo shape x y val b L rr cc =
        if ∃ i ∈ L, shape.testBit (15 - i) = true ∧
            x + colOf i = (cc : Int) ∧ y + rowOf i = (rr : Int)
        then val else b rr cc
  | [], b, rr, cc => by simp [fixPieceGo]
  | i :: L, b, rr, cc => by
    rw [show fixPieceGo shape x y val b (i :: L) = fixPieceGo shape x y val
        (if shape.testBit (15 - i) then
          if h : 0 ≤ x + colOf i ∧ x + colOf i < (gameGridWidth : Int) ∧
                 0 ≤ y + rowOf i ∧ y + rowOf i < (gameGridHeight : Int) then
            writeCell b ⟨(y + rowOf i).toNat, by omega⟩ ⟨(x + colOf i).toNat, by omega⟩ val
          else b
        else b) L from rfl]
    rw [fixPieceGo_cell shape x y val L]
    by_cases hL : ∃ j ∈ L, shape.testBit (15 - j) = true ∧
        x + colOf j = (cc : Int) ∧ y + rowOf j = (rr : Int)
    · have hEx : ∃ j ∈ i :: L, shape.testBit (15 - j) = true ∧
          x + colOf j = (cc : Int) ∧ y + rowOf j = (rr : Int) := by
        rcases hL with ⟨j, hj, hp⟩
        exact ⟨j, List.mem_cons_of_mem i hj, hp⟩
      rw [if_pos hL, if_pos hEx]
    · rw [if_neg hL]
      by_cases hi : shape.testBit (15 - i) = true ∧
          x + colOf i = (cc : Int) ∧ y + rowOf i = (rr : Int)
      · have hEx : ∃ j ∈ i :: L, shape.testBit (15 - j) = true ∧
            x + colOf j = (cc : Int) ∧ y + rowOf j = (rr : Int) :=
          ⟨i, List.mem_cons_self i L, hi⟩
        rw [if_pos hEx]
        obtain ⟨ht, hcx, hry⟩ := hi
        rw [if_pos ht]
        have hb : 0 ≤ x + colOf i ∧ x + colOf i < (gameGridWidth : Int) ∧
            0 ≤ y + rowOf i ∧ y + rowOf i < (gameGridHeight : Int) := by
          have h1 := cc.isLt
          have h2 := rr.isLt
          omega
        rw [dif_pos hb]
        have hr1 : rr = (⟨(y + rowOf i).toNat, by omega⟩ : Fin gameGridHeight) := by
          apply Fin.ext
          simp only
          omega
        have hc1 : cc = (⟨(x + colOf i).toNat, by omega⟩ : Fin gameGridWidth) := by
          apply Fin.ext
          simp only
          omega
        unfold writeCell
        rw [if_pos ⟨hr1, hc1⟩]
      · have hNEx : ¬∃ j ∈ i :: L, shape.testBit (15 - j) = true ∧
            x + colOf j = (cc : Int) ∧ y + rowOf j = (rr : Int) := by
          rintro ⟨j, hj, hp⟩
          rcases List.mem_cons.1 hj with rfl | hjL
          · exact hi hp
          · exact hL ⟨j, hjL, hp⟩
        rw [if_neg hNEx]
        by_cases ht : shape.testBit (15 - i) = true
        · rw [if_pos ht]
          by_cases hb : 0 ≤ x + colOf i ∧ x + colOf i < (gameGridWidth : Int) ∧
              0 ≤ y + rowOf i ∧ y + rowOf i < (gameGridHeight : Int)
          · rw [dif_pos hb]
            have hne : ¬(rr = (⟨(y + rowOf i).toNat, by omega⟩ : Fin gameGridHeight) ∧
                cc = (⟨(x + colOf i).toNat, by omega⟩ : Fin gameGridWidth)) := by
              rintro ⟨h1, h2⟩
              apply hi
              refine ⟨ht, ?_, ?_⟩
              · have h2v := congrArg Fin.val h2
                simp only at h2v
                omega
              · have h1v := congrArg Fin.val h1
                simp only at h1v
                omega
            unfold writeCell
            rw [if_neg hne]
          · rw [dif_neg hb]
        · rw [if_neg ht]

/-- Some occupied cell of the mask lands exactly on the absolute position
`(ccv, rrv)`. -/
def footprintHits (mask : Nat) (x y : Int) (ccv rrv : Int) : Prop :=
  ∃ c < 4, ∃ r < 4, cellOccupied mask c r = true ∧
    x + (c : Int) = ccv ∧ y + (r : Int) = rrv

instance (mask : Nat) (x y ccv rrv : Int) :
    Decidable (footprintHits mask x y ccv rrv) := by
  unfold footprintHits
  infer_instance

/-- Claim C8: `fixPiece` sets to `val` exactly the in-bounds board cells
hit by an occupied cell of the mask; occupied cells that map out of bounds
are silently skipped (they match no board cell), and every other board
cell keeps its previous value. -/
theorem claim8_fixPiece_frame (b : Board) (mask : Nat) (x y : Int) (val : ShapeState)
    (rr : Fin gameGridHeight) (cc : Fin gameGridWidth) :
    fixPiece b mask x y val rr cc =
      if footprintHits mask x y (cc : Int) (rr : Int)
      then val else b rr cc := by
  unfold fixPiece
  rw [fixPieceGo_cell]
  apply if_congr _ rfl rfl
  unfold footprintHits
  rw [range16_exists_iff]
  constructor
  · rintro ⟨c, hc, r, hr, ht, hcx, hry⟩
    rw [colOf_cell hc] at hcx
    rw [rowOf_cell hc hr] at hry
    exact ⟨c, hc, r, hr, ht, hcx, hry⟩
  · rintro ⟨c, hc, r, hr, ht, hcx, hry⟩
    refine ⟨c, hc, r, hr, ht, ?_, ?_⟩
    · rw [colOf_cell hc]
      exact hcx
    · rw [rowOf_cell hc hr]
      exact hry

/-! ### Claim C10: guarded accesses never fault -/

theorem fixPieceOptGo_eq_some (shape : Nat) (x y : Int) (val : ShapeState) :
    ∀ (L : List Nat) (b : Board),
      fixPieceOptGo shape x y val b L = some (fixPieceGo shape x y val b L)
  | [], b => rfl
  | i :: L, b => by
    unfold fixPieceOptGo fixPieceGo
    by_cases ht : shape.testBit (15 - i)
    · rw [if_pos ht, if_pos ht]
      by_cases hb : 0 ≤ x + colOf i ∧ x + colOf i < (gameGridWidth : Int) ∧
          0 ≤ y + rowOf i ∧ y + rowOf i < (gameGridHeight : Int)
      · rw [if_pos hb, dif_pos hb]
        unfold boardSetOpt
        rw [dif_pos hb]
        exact fixPieceOptGo_eq_some shape x y val L _
      · rw [if_neg hb, dif_neg hb]
        exact fixPieceOptGo_eq_some shape x y val L b
    · rw [if_neg ht, if_neg ht]
      exact fixPieceOptGo_eq_some shape x y val L b

theorem hasCollisionOptGo_eq_some (b : Board) (shape : Nat) (x y : Int) :
    ∀ L : List Nat,
      hasCollisionOptGo b shape x y L = some (hasCollisionGo b shape x y L)
  | [] => rfl
  | i :: L => by
    have hopt : hasCollisionOptGo b shape x y (i :: L) =
        if shape.testBit (15 - i) = true then
          if (!isWithinBoard (x + colOf i) (y + rowOf i)) = true then some true
          else
            match boardGetOpt b (x + colOf i) (y + rowOf i) with
            | none => none
            | some s =>
              if (s == FixedState) = true then some true
              else hasCollisionOptGo b shape x y L
        else hasCollisionOptGo b shape x y L := rfl
    have hgo : hasCollisionGo b shape x y (i :: L) =
        if (shape.testBit (15 - i) &&
            (!isWithinBoard (x + colOf i) (y + rowOf i) ||
             (boardGet b (x + colOf i) (y + rowOf i) == FixedState))) = true then true
        else hasCollisionGo b shape x y L := rfl
    rw [hopt, hgo]
    by_cases ht : shape.testBit (15 - i) = true
    · rw [if_pos ht]
      by_cases hw : isWithinBoard (x + colOf i) (y + rowOf i) = true
      · rw [if_neg (by rw [hw]; simp)]
        have hb : 0 ≤ x + colOf i ∧ x + colOf i < (gameGridWidth : Int) ∧
            0 ≤ y + rowOf i ∧ y + rowOf i < (gameGridHeight : Int) := of_decide_eq_true hw
        have hget : boardGetOpt b (x + colOf i) (y + rowOf i) =
            some (boardGet b (x + colOf i) (y + rowOf i)) := by
          unfold boardGetOpt boardGet
          rw [dif_pos hb, dif_pos hb]
        rw [hget]
        dsimp only
        by_cases hfx : (boardGet b (x + colOf i) (y + rowOf i) == FixedState) = true
        · have hcondT : (shape.testBit (15 - i) &&
              (!isWithinBoard (x + colOf i) (y + rowOf i) ||
               (boardGet b (x + colOf i) (y + rowOf i) == FixedState))) = true := by
            simp [ht, hw, hfx]
          rw [if_pos hfx, if_pos hcondT]
        · have hcondF : ¬((shape.testBit (15 - i) &&
              (!isWithinBoard (x + colOf i) (y + rowOf i) ||
               (boardGet b (x + colOf i) (y + rowOf i) == FixedState))) = true) := by
            simp [ht, hw, hfx]
          rw [if_neg hfx, if_neg hcondF]
          exact hasCollisionOptGo_eq_some b shape x y L
      · have hwf : isWithinBoard (x + colOf i) (y + rowOf i) = false := by
          revert hw
          cases isWithinBoard (x + colOf i) (y + rowOf i) <;> simp
        rw [if_pos (by rw [hwf]; rfl), if_pos (by rw [ht, hwf]; rfl)]
    · have htf : shape.testBit (15 - i) = false := by
        revert ht
        cases shape.testBit (15 - i) <;> simp
      rw [if_neg ht, if_neg (by rw [htf]; simp)]
      exact hasCollisionOptGo_eq_some b shape x y L

/-- Claim C10: for every origin, including off-board ones, the guarded
accesses of `fixPiece` and `hasCollision` never index out of range — the
fallible versions (where a raw access returns `none` on a bad index) always
return `some` of the total result. -/
theorem claim10_no_fault (b : Board) (mask : Nat) (x y : Int) (val : ShapeState) :
    fixPieceOpt b mask x y val = some (fixPiece b mask x y val) ∧
    hasCollisionOpt b mask x y = some (hasCollision b mask x y) :=
  ⟨fixPieceOptGo_eq_some mask x y val (List.range 16) b,
   hasCollisionOptGo_eq_some b mask x y (List.range 16)⟩

/-! ### Row-level characterisation of the clearing primitives -/

theorem rowAt_setRow (b : Board) (m : Nat) (row : Row) (j : Nat) :
    rowAt (setRow b m row) j =
      if j = m ∧ j < gameGridHeight then row else rowAt b j := by
  funext xx
  unfold rowAt setRow
  by_cases hj : j < gameGridHeight
  · rw [dif_pos hj, dif_pos hj]
    by_cases hm : j = m
    · have hcond : j = m ∧ j < gameGridHeight := ⟨hm, hj⟩
      rw [if_pos hcond]
      have : ((⟨j, hj⟩ : Fin gameGridHeight) : Nat) = m := hm
      rw [if_pos this]
    · have hcond : ¬(j = m ∧ j < gameGridHeight) := fun h => hm h.1
      rw [if_neg hcond]
      have : ¬(((⟨j, hj⟩ : Fin gameGridHeight) : Nat) = m) := hm
      rw [if_neg this]
  · rw [dif_neg hj, dif_neg hj]
    have hcond : ¬(j = m ∧ j < gameGridHeight) := fun h => hj h.2
    rw [if_neg hcond]

theorem rowAt_copyRowsDown (b : Board) (k : Nat) (hk : k < gameGridHeight) (j : Nat) :
    rowAt (copyRowsDown b k) j =
      if 1 ≤ j ∧ j ≤ k then rowAt b (j - 1) else rowAt b j := by
  induction k generalizing b with
  | zero =>
    have hcond : ¬(1 ≤ j ∧ j ≤ 0) := by omega
    rw [if_neg hcond]
    rfl
  | succ k ih =>
    show rowAt (copyRowsDown (setRow b (k + 1) (rowAt b k)) k) j = _
    rw [ih (setRow b (k + 1) (rowAt b k)) (by omega)]
    by_cases h1 : 1 ≤ j ∧ j ≤ k
    · rw [if_pos h1, if_pos (by omega : 1 ≤ j ∧ j ≤ k + 1)]
      rw [rowAt_setRow]
      have : ¬(j - 1 = k + 1 ∧ j - 1 < gameGridHeight) := by omega
      rw [if_neg this]
    · rw [if_neg h1]
      by_cases h2 : j = k + 1
      · rw [rowAt_setRow]
        have : j = k + 1 ∧ j < gameGridHeight := by omega
        rw [if_pos this, if_pos (by omega : 1 ≤ j ∧ j ≤ k + 1)]
        have : j - 1 = k := by omega
        rw [this]
      · rw [rowAt_setRow]
        have : ¬(j = k + 1 ∧ j < gameGridHeight) := by omega
        rw [if_neg this, if_neg (by omega : ¬(1 ≤ j ∧ j ≤ k + 1))]

theorem rowAt_clearRowAt (b : Board) (r : Nat) (hr : r < gameGridHeight) (j : Nat) :
    rowAt (clearRowAt b r) j =
      if j = 0 then emptyRow
      else if j ≤ r then rowAt b (j - 1) else rowAt b j := by
  unfold clearRowAt
  rw [rowAt_setRow]
  by_cases h0 : j = 0
  · rw [if_pos (by omega : j = 0 ∧ j < gameGridHeight), if_pos h0]
  · rw [if_neg (by omega : ¬(j = 0 ∧ j < gameGridHeight)), if_neg h0]
    rw [rowAt_copyRowsDown b r hr]
    by_cases hjr : j ≤ r
    · rw [if_pos (by omega : 1 ≤ j ∧ j ≤ r), if_pos hjr]
    · rw [if_neg (by omega : ¬(1 ≤ j ∧ j ≤ r)), if_neg hjr]

theorem rowFullRow_emptyRow : rowFullRow emptyRow = false := by decide

theorem rowFullRow_iff (r : Row) :
    rowFullRow r = true ↔ ∀ xx : Fin gameGridWidth, r xx = FixedState := by
  unfold rowFullRow
  constructor
  · intro h xx
    by_contra hne
    have hmem : xx ∈ List.finRange gameGridWidth := List.mem_finRange xx
    have : ((List.finRange gameGridWidth).any fun x => !(r x == FixedState)) = true := by
      rw [List.any_eq_true]
      refine ⟨xx, hmem, ?_⟩
      simp [hne]
    rw [this] at h
    exact absurd h (by simp)
  · intro h
    have : ((List.finRange gameGridWidth).any fun x => !(r x == FixedState)) = false := by
      rw [List.any_eq_false]
      intro x hx
      simp [h x]
    rw [this]
    rfl

theorem rowFullB_rowAt (b : Board) (y : Nat) : rowFullB b y = rowFullRow (rowAt b y) := rfl

/-! ### Scan lemmas for `removeFullLinesGo` -/

theorem removeFullLinesGo_append (b : Board) (L1 L2 : List Nat) :
    removeFullLinesGo b (L1 ++ L2) = removeFullLinesGo (removeFullLinesGo b L1) L2 := by
  induction L1 generalizing b with
  | nil => rfl
  | cons a L1 ih =>
    show removeFullLinesGo (if rowFullB b a then clearRowAt b a else b) (L1 ++ L2) = _
    rw [ih]
    rfl

theorem removeFullLinesGo_no_full (b : Board) (s n : Nat)
    (h : ∀ j, s ≤ j → j < s + n → rowFullB b j = false) :
    removeFullLinesGo b (List.range' s n) = b := by
  induction n generalizing s with
  | zero => rfl
  | succ n ih =>
    rw [List.range'_succ]
    show removeFullLinesGo (if rowFullB b s then clearRowAt b s else b) (List.range' (s + 1) n) = b
    have hs : rowFullB b s = false := h s (by omega) (by omega)
    rw [if_neg (by rw [hs]; simp)]
    exact ih (s + 1) fun j h1 h2 => h j (by omega) (by omega)

theorem removeFullLinesGo_cons_full (b : Board) (y : Nat) (rest : List Nat)
    (hfull : rowFullB b y = true) :
    removeFullLinesGo b (y :: rest) = removeFullLinesGo (clearRowAt b y) rest := by
  show removeFullLinesGo (if rowFullB b y then clearRowAt b y else b) rest = _
  rw [if_pos hfull]

/-- Rows strictly below a cleared row keep their fullness status. -/
theorem rowFullB_clearRowAt_high (b : Board) (r : Nat) (hr : r < gameGridHeight)
    (j : Nat) (hj : r < j) : rowFullB (clearRowAt b r) j = rowFullB b j := by
  rw [rowFullB_rowAt, rowFullB_rowAt, rowAt_clearRowAt b r hr]
  rw [if_neg (by omega : ¬(j = 0)), if_neg (by omega : ¬(j ≤ r))]

/-- Rows at or above a cleared row are not full afterwards, provided no row
above the cleared one was full before. -/
theorem rowFullB_clearRowAt_low (b : Board) (r : Nat) (hr : r < gameGridHeight)
    (hprev : ∀ j < r, rowFullB b j = false) (j : Nat) (hj : j ≤ r) :
    rowFullB (clearRowAt b r) j = false := by
  rw [rowFullB_rowAt, rowAt_clearRowAt b r hr]
  by_cases h0 : j = 0
  · rw [if_pos h0]
    exact rowFullRow_emptyRow
  · rw [if_neg h0, if_pos hj]
    exact hprev (j - 1) (by omega)

/-! ### Single and double clears -/

theorem removeFullLines_single (b : Board) (r : Nat) (hr : r < gameGridHeight)
    (hfull : rowFullB b r = true)
    (hothers : ∀ j < gameGridHeight, j ≠ r → rowFullB b j = false) :
    removeFullLines b = clearRowAt b r := by
  unfold removeFullLines
  rw [List.range_eq_range']
  rw [show gameGridHeight = (gameGridHeight - r) + r from by omega]
  rw [← List.range'_append_1 0 r (gameGridHeight - r)]
  rw [removeFullLinesGo_append]
  rw [removeFullLinesGo_no_full b 0 r
    (fun j h1 h2 => hothers j (by omega) (by omega))]
  rw [show gameGridHeight - r = (gameGridHeight - r - 1) + 1 from by omega]
  rw [List.range'_succ]
  rw [show 0 + r = r from by omega]
  rw [removeFullLinesGo_cons_full _ _ _ hfull]
  apply removeFullLinesGo_no_full
  intro j h1 h2
  rw [rowFullB_clearRowAt_high b r hr j (by omega)]
  exact hothers j (by omega) (by omega)

theorem removeFullLines_double (b : Board) (r : Nat) (hr : r + 1 < gameGridHeight)
    (hfull1 : rowFullB b r = true) (hfull2 : rowFullB b (r + 1) = true)
    (hothers : ∀ j < gameGridHeight, j ≠ r → j ≠ r + 1 → rowFullB b j = false) :
    removeFullLines b = clearRowAt (clearRowAt b r) (r + 1) := by
  unfold removeFullLines
  rw [List.range_eq_range']
  rw [show gameGridHeight = (gameGridHeight - r) + r from by omega]
  rw [← List.range'_append_1 0 r (gameGridHeight - r)]
  rw [removeFullLinesGo_append]
  rw [removeFullLinesGo_no_full b 0 r
    (fun j h1 h2 => hothers j (by omega) (by omega) (by omega))]
  rw [show gameGridHeight - r = (gameGridHeight - r - 2) + 1 + 1 from by omega]
  rw [List.range'_succ]
  rw [show 0 + r = r from by omega]
  rw [removeFullLinesGo_cons_full _ _ _ hfull1]
  rw [List.range'_succ]
  rw [removeFullLinesGo_cons_full _ _ _
    (by rw [rowFullB_clearRowAt_high b r (by omega) (r + 1) (by omega)]; exact hfull2)]
  apply removeFullLinesGo_no_full
  intro j h1 h2
  rw [rowFullB_clearRowAt_high (clearRowAt b r) (r + 1) hr j (by omega)]
  rw [rowFullB_clearRowAt_high b r (by omega) j (by omega)]
  exact hothers j (by omega) (by omega) (by omega)

/-! ### Double-clear characterisation and stack height -/

theorem rowAt_fin (b : Board) (j : Fin gameGridHeight) : rowAt b j.val = b j := by
  unfold rowAt
  rw [dif_pos j.isLt]

theorem rowAt_clear_two (b : Board) (r : Nat) (hr : r + 1 < gameGridHeight) (j : Nat) :
    rowAt (clearRowAt (clearRowAt b r) (r + 1)) j =
      if j ≤ 1 then emptyRow
      else if j ≤ r + 1 then rowAt b (j - 2) else rowAt b j := by
  rw [rowAt_clearRowAt _ (r + 1) hr j]
  by_cases h0 : j = 0
  · rw [if_pos h0, if_pos (by omega : j ≤ 1)]
  · rw [if_neg h0]
    by_cases hj1 : j ≤ r + 1
    · rw [if_pos hj1, rowAt_clearRowAt b r (by omega) (j - 1)]
      by_cases hj2 : j = 1
      · rw [if_pos (by omega : j - 1 = 0), if_pos (by omega : j ≤ 1)]
      · rw [if_neg (by omega : ¬(j - 1 = 0)), if_pos (by omega : j - 1 ≤ r),
            if_neg (by omega : ¬(j ≤ 1)), if_pos hj1]
        rw [show j - 1 - 1 = j - 2 from by omega]
    · rw [if_neg hj1, rowAt_clearRowAt b r (by omega) j]
      rw [if_neg h0, if_neg (by omega : ¬(j ≤ r)), if_neg (by omega : ¬(j ≤ 1)),
          if_neg hj1]

theorem rowOcc_emptyRow : rowOcc emptyRow = false := by decide

theorem rowOcc_of_full (row : Row) (h : rowFullRow row = true) : rowOcc row = true := by
  rw [rowFullRow_iff] at h
  unfold rowOcc
  rw [List.any_eq_true]
  refine ⟨⟨0, by decide⟩, List.mem_finRange _, ?_⟩
  rw [h ⟨0, by decide⟩]
  rfl

theorem countP_range_split (p : Nat → Bool) (s m n : Nat) :
    (List.range' s (m + n)).countP p =
      (List.range' s m).countP p + (List.range' (s + m) n).countP p := by
  rw [Nat.add_comm m n, ← List.range'_append_1 s m n, List.countP_append]

theorem stackHeight_clear_two (b : Board) (r : Nat) (hr : r + 1 < gameGridHeight)
    (hfull1 : rowFullB b r = true) (hfull2 : rowFullB b (r + 1) = true) :
    stackHeight (clearRowAt (clearRowAt b r) (r + 1)) + 2 = stackHeight b := by
  have hrow := rowAt_clear_two b r hr
  unfold stackHeight
  rw [List.range_eq_range']
  have hL : (List.range' 0 gameGridHeight).countP
        (fun y => rowOcc (rowAt (clearRowAt (clearRowAt b r) (r + 1)) y)) =
      (List.range' 2 r).countP (fun y => rowOcc (rowAt b (y - 2))) +
      (List.range' (r + 2) (gameGridHeight - (r + 2))).countP
        (fun y => rowOcc (rowAt b y)) := by
    conv_lhs =>
      rw [show gameGridHeight = 2 + (r + (gameGridHeight - (r + 2))) from by omega]
    rw [countP_range_split _ 0 2 (r + (gameGridHeight - (r + 2)))]
    rw [countP_range_split _ (0 + 2) r (gameGridHeight - (r + 2))]
    simp only [Nat.zero_add]
    rw [show 2 + r = r + 2 from by omega]
    have h1 : (List.range' 0 2).countP
        (fun y => rowOcc (rowAt (clearRowAt (clearRowAt b r) (r + 1)) y)) = 0 := by
      rw [List.countP_eq_zero]
      intro a ha
      rw [List.mem_range'_1] at ha
      rw [hrow a, if_pos (by omega : a ≤ 1)]
      rw [rowOcc_emptyRow]
      simp
    have h2 : (List.range' 2 r).countP
        (fun y => rowOcc (rowAt (clearRowAt (clearRowAt b r) (r + 1)) y)) =
        (List.range' 2 r).countP (fun y => rowOcc (rowAt b (y - 2))) := by
      apply List.countP_congr
      intro a ha
      rw [List.mem_range'_1] at ha
      rw [hrow a, if_neg (by omega : ¬(a ≤ 1)), if_pos (by omega : a ≤ r + 1)]
    have h3 : (List.range' (r + 2) (gameGridHeight - (r + 2))).countP
        (fun y => rowOcc (rowAt (clearRowAt (clearRowAt b r) (r + 1)) y)) =
        (List.range' (r + 2) (gameGridHeight - (r + 2))).countP
          (fun y => rowOcc (rowAt b y)) := by
      apply List.countP_congr
      intro a ha
      rw [List.mem_range'_1] at ha
      rw [hrow a, if_neg (by omega : ¬(a ≤ 1)), if_neg (by omega : ¬(a ≤ r + 1))]
    rw [h1, h2, h3]
    omega
  have hR : (List.range' 0 gameGridHeight).countP (fun y => rowOcc (rowAt b y)) =
      (List.range' 0 r).countP (fun y => rowOcc (rowAt b y)) + 2 +
      (List.range' (r + 2) (gameGridHeight - (r + 2))).countP
        (fun y => rowOcc (rowAt b y)) := by
    conv_lhs =>
      rw [show gameGridHeight = r + (2 + (gameGridHeight - (r + 2))) from by omega]
    rw [countP_range_split _ 0 r (2 + (gameGridHeight - (r + 2)))]
    rw [countP_range_split _ (0 + r) 2 (gameGridHeight - (r + 2))]
    simp only [Nat.zero_add]
    have h2 : (List.range' r 2).countP (fun y => rowOcc (rowAt b y)) = 2 := by
      have hlist : List.range' r 2 = [r, r + 1] := rfl
      rw [hlist]
      have o1 : rowOcc (rowAt b r) = true := rowOcc_of_full _ hfull1
      have o2 : rowOcc (rowAt b (r + 1)) = true := rowOcc_of_full _ hfull2
      simp [List.countP_cons, o1, o2]
    rw [h2]
    omega
  have h2shift : (List.range' 2 r).countP (fun y => rowOcc (rowAt b (y - 2))) =
      (List.range' 0 r).countP (fun y => rowOcc (rowAt b y)) := by
    rw [List.range'_eq_map_range 2 r, List.range'_eq_map_range 0 r]
    rw [List.countP_map, List.countP_map]
    apply List.countP_congr
    intro a ha
    show rowOcc (rowAt b (2 + a - 2)) = true ↔ rowOcc (rowAt b (0 + a)) = true
    rw [show 2 + a - 2 = a from by omega, show 0 + a = a from by omega]
  rw [hL, hR, h2shift]
  omega

/-- Claim C5: `removeFullLines` is a no-op (hence idempotent) when no row is
full; with a single full row at `r` it shifts exactly rows `[0, r)` down one
and empties row 0, leaving rows below `r` unchanged; with exactly two
adjacent full rows `r`, `r+1` it clears both — rows shift down two, the top
two rows become empty, and the stack height (number of non-empty rows)
drops by exactly 2. -/
theorem claim5_clearFullRows_cases (b : Board) (r : Nat) :
    ((∀ j < gameGridHeight, rowFullB b j = false) → removeFullLines b = b) ∧
    (r < gameGridHeight → rowFullB b r = true →
      (∀ j < gameGridHeight, j ≠ r → rowFullB b j = false) →
      ∀ (j : Fin gameGridHeight) (xx : Fin gameGridWidth),
        removeFullLines b j xx =
          if j.val = 0 then EmptyState
          else if j.val ≤ r then rowAt b (j.val - 1) xx else b j xx) ∧
    (r + 1 < gameGridHeight → rowFullB b r = true → rowFullB b (r + 1) = true →
      (∀ j < gameGridHeight, j ≠ r → j ≠ r + 1 → rowFullB b j = false) →
      (∀ (j : Fin gameGridHeight) (xx : Fin gameGridWidth),
        removeFullLines b j xx =
          if j.val ≤ 1 then EmptyState
          else if j.val ≤ r + 1 then rowAt b (j.val - 2) xx else b j xx) ∧
      stackHeight (removeFullLines b) + 2 = stackHeight b) := by
  refine ⟨?_, ?_, ?_⟩
  · intro hno
    unfold removeFullLines
    rw [List.range_eq_range']
    exact removeFullLinesGo_no_full b 0 gameGridHeight
      (fun j h1 h2 => hno j (by omega))
  · intro h1 h2 h3 j xx
    rw [removeFullLines_single b r h1 h2 h3]
    have hcell : clearRowAt b r j xx = rowAt (clearRowAt b r) j.val xx := by
      rw [rowAt_fin]
    rw [hcell, rowAt_clearRowAt b r h1 j.val]
    by_cases h0 : j.val = 0
    · rw [if_pos h0, if_pos h0]
      rfl
    · rw [if_neg h0, if_neg h0]
      by_cases hjr : j.val ≤ r
      · rw [if_pos hjr, if_pos hjr]
      · rw [if_neg hjr, if_neg hjr, rowAt_fin]
  · intro h1 h2 h3 h4
    have hremove : removeFullLines b = clearRowAt (clearRowAt b r) (r + 1) :=
      removeFullLines_double b r h1 h2 h3 h4
    constructor
    · intro j xx
      rw [hremove]
      have hcell : clearRowAt (clearRowAt b r) (r + 1) j xx =
          rowAt (clearRowAt (clearRowAt b r) (r + 1)) j.val xx := by
        rw [rowAt_fin]
      rw [hcell, rowAt_clear_two b r h1 j.val]
      by_cases hj1 : j.val ≤ 1
      · rw [if_pos hj1, if_pos hj1]
        rfl
      · rw [if_neg hj1, if_neg hj1]
        by_cases hj2 : j.val ≤ r + 1
        · rw [if_pos hj2, if_pos hj2]
        · rw [if_neg hj2, if_neg hj2, rowAt_fin]
    · rw [hremove]
      exact stackHeight_clear_two b r h1 h2 h3

/-! ### Claim C1: the scan is equivalent to the re-check policy of the spec -/

theorem countFull_lt_of_clear (b : Board) (y : Nat) (hy : y < gameGridHeight)
    (hfull : rowFullB b y = true) (hprev : ∀ j < y, rowFullB b j = false) :
    countFull (clearRowAt b y) < countFull b := by
  unfold countFull
  rw [List.range_eq_range']
  rw [show gameGridHeight = (y + 1) + (gameGridHeight - (y + 1)) from by omega]
  rw [countP_range_split (fun j => rowFullB (clearRowAt b y) j) 0 (y + 1)
        (gameGridHeight - (y + 1)),
      countP_range_split (fun j => rowFullB b j) 0 (y + 1) (gameGridHeight - (y + 1))]
  simp only [Nat.zero_add]
  have hA : (List.range' 0 (y + 1)).countP (fun j => rowFullB (clearRowAt b y) j) = 0 := by
    rw [List.countP_eq_zero]
    intro a ha
    rw [List.mem_range'_1] at ha
    rw [rowFullB_clearRowAt_low b y hy hprev a (by omega)]
    simp
  have hC : (List.range' (y + 1) (gameGridHeight - (y + 1))).countP
        (fun j => rowFullB (clearRowAt b y) j) =
      (List.range' (y + 1) (gameGridHeight - (y + 1))).countP (fun j => rowFullB b j) := by
    apply List.countP_congr
    intro a ha
    rw [List.mem_range'_1] at ha
    rw [rowFullB_clearRowAt_high b y hy a (by omega)]
  have hB : 0 < (List.range' 0 (y + 1)).countP (fun j => rowFullB b j) := by
    rw [List.countP_pos_iff]
    exact ⟨y, by rw [List.mem_range'_1]; omega, by rw [hfull]⟩
  omega

theorem specGo_eq_removeGo : ∀ (fuel : Nat) (b : Board) (y : Nat),
    (∀ j < y, rowFullB b j = false) →
    gameGridHeight - y + countFull b ≤ fuel →
    clearFullRowsSpecGo b y fuel = removeFullLinesGo b (List.range' y (gameGridHeight - y))
  | 0, b, y, hprev, hfuel => by
    rw [show gameGridHeight - y = 0 from by omega]
    rfl
  | fuel + 1, b, y, hprev, hfuel => by
    show (if y < gameGridHeight then
            if rowFullB b y then clearFullRowsSpecGo (clearRowAt b y) y fuel
            else clearFullRowsSpecGo b (y + 1) fuel
          else b) = _
    by_cases hy : y < gameGridHeight
    · rw [if_pos hy]
      rw [show gameGridHeight - y = (gameGridHeight - y - 1) + 1 from by omega,
          List.range'_succ]
      by_cases hfull : rowFullB b y = true
      · rw [if_pos hfull, removeFullLinesGo_cons_full _ _ _ hfull]
        have hcount : countFull (clearRowAt b y) < countFull b :=
          countFull_lt_of_clear b y hy hfull hprev
        have hprev2 : ∀ j < y, rowFullB (clearRowAt b y) j = false := fun j hj =>
          rowFullB_clearRowAt_low b y hy hprev j (by omega)
        rw [specGo_eq_removeGo fuel (clearRowAt b y) y hprev2 (by omega)]
        rw [show gameGridHeight - y = (gameGridHeight - y - 1) + 1 from by omega,
            List.range'_succ]
        have hnotfull : rowFullB (clearRowAt b y) y = false :=
          rowFullB_clearRowAt_low b y hy hprev y (Nat.le_refl y)
        show removeFullLinesGo
            (if rowFullB (clearRowAt b y) y then clearRowAt (clearRowAt b y) y
             else clearRowAt b y) _ = _
        rw [if_neg (by rw [hnotfull]; simp)]
        rw [show gameGridHeight - y - 1 + 1 - 1 = gameGridHeight - y - 1 from by omega]
      · have hfull2 : rowFullB b y = false := by
          revert hfull
          cases rowFullB b y <;> simp
        rw [if_neg hfull]
        show _ = removeFullLinesGo (if rowFullB b y then clearRowAt b y else b)
            (List.range' (y + 1) (gameGridHeight - y - 1))
        rw [if_neg hfull]
        have hprev2 : ∀ j < y + 1, rowFullB b j = false := by
          intro j hj
          by_cases hjy : j = y
          · rw [hjy]
            exact hfull2
          · exact hprev j (by omega)
        rw [specGo_eq_removeGo fuel b (y + 1) hprev2 (by omega)]
        rw [show gameGridHeight - (y + 1) = gameGridHeight - y - 1 from by omega]
    · rw [if_neg hy, show gameGridHeight - y = 0 from by omega]
      rfl

/-- Claim C1: `removeFullLines` scans top to bottom treating a row as full
iff every cell is `FixedState`, and its result coincides, on every board,
with the spec's policy of re-checking the same index after a shift
(`clearFullRowsSpec`): the source loop advances the scan index after a
clear, but a freshly shifted row is never full again, so the two policies
are extensionally equal. -/
theorem claim1_clearFullRows_matches_spec (b : Board) :
    removeFullLines b = clearFullRowsSpec b ∧
    ∀ y : Fin gameGridHeight,
      (rowFullB b y.val = true ↔ ∀ xx : Fin gameGridWidth, b y xx = FixedState) := by
  constructor
  · unfold removeFullLines clearFullRowsSpec
    rw [List.range_eq_range']
    have hcount : countFull b ≤ gameGridHeight := by
      unfold countFull
      have h1 := List.countP_le_length (p := fun y => rowFullB b y)
        (l := List.range gameGridHeight)
      rw [List.length_range] at h1
      exact h1
    have h := specGo_eq_removeGo (2 * gameGridHeight) b 0
      (fun j hj => absurd hj (by omega)) (by omega)
    rw [show gameGridHeight - 0 = gameGridHeight from by omega] at h
    rw [h]
  · intro y
    rw [rowFullB_rowAt, rowAt_fin]
    exact rowFullRow_iff (b y)

/-! ### Claim C7: bit-level helpers for the shape geometry -/

theorem nibble_iff (m s : Nat) :
    ((m >>> s) &&& 0xF ≠ 0) ↔ ∃ k < 4, m.testBit (s + k) = true := by
  constructor
  · intro h
    by_contra hno
    push_neg at hno
    apply h
    have hbits : ∀ i, ((m >>> s) &&& 15).testBit i = false := by
      intro i
      rw [Nat.testBit_and, Nat.testBit_shiftRight]
      by_cases hi : i < 4
      · have hfalse : m.testBit (s + i) = false := by
          have := hno i hi
          revert this
          cases m.testBit (s + i) <;> simp
        rw [hfalse, Bool.false_and]
      · have h15 : (15 : Nat).testBit i = false := by
          rw [show (15 : Nat) = 2 ^ 4 - 1 from rfl, Nat.testBit_two_pow_sub_one]
          simp [hi]
        rw [h15, Bool.and_false]
    exact Nat.eq_of_testBit_eq fun i => by rw [hbits i, Nat.zero_testBit]
  · rintro ⟨k, hk, hbit⟩ h0
    have hk2 : ((m >>> s) &&& 15).testBit k = true := by
      rw [Nat.testBit_and, Nat.testBit_shiftRight, hbit]
      rw [show (15 : Nat) = 2 ^ 4 - 1 from rfl, Nat.testBit_two_pow_sub_one]
      simp [hk]
    rw [h0, Nat.zero_testBit] at hk2
    cases hk2

theorem row_occ_iff (m r : Nat) (hr : r < 4) :
    (∃ c < 4, cellOccupied m c r = true) ↔ ((m >>> (12 - 4 * r)) &&& 0xF ≠ 0) := by
  rw [nibble_iff]
  constructor
  · rintro ⟨c, hc, hb⟩
    refine ⟨3 - c, by omega, ?_⟩
    unfold cellOccupied at hb
    rw [show 12 - 4 * r + (3 - c) = 15 - (4 * r + c) from by omega]
    exact hb
  · rintro ⟨k, hk, hb⟩
    refine ⟨3 - k, by omega, ?_⟩
    unfold cellOccupied
    rw [show 15 - (4 * r + (3 - k)) = 12 - 4 * r + k from by omega]
    exact hb

theorem row_empty_of_nibble (m r : Nat) (hr : r < 4)
    (h : ¬((m >>> (12 - 4 * r)) &&& 0xF ≠ 0)) :
    ∀ c < 4, cellOccupied m c r = false := by
  intro c hc
  by_contra hocc
  have htrue : cellOccupied m c r = true := by
    revert hocc
    cases cellOccupied m c r <;> simp
  exact h ((row_occ_iff m r hr).1 ⟨c, hc, htrue⟩)

theorem exists_cell_of_ne_zero (m : Nat) (hlt : m < 65536) (hne : m ≠ 0) :
    ∃ c < 4, ∃ r < 4, cellOccupied m c r = true := by
  by_contra hno
  push_neg at hno
  apply hne
  apply Nat.eq_of_testBit_eq
  intro j
  rw [Nat.zero_testBit]
  by_cases hj : j < 16
  · have hcell := hno (3 - j % 4) (by omega) (3 - j / 4) (by omega)
    unfold cellOccupied at hcell
    rw [show 15 - (4 * (3 - j / 4) + (3 - j % 4)) = j from by omega] at hcell
    revert hcell
    cases m.testBit j <;> simp
  · apply Nat.testBit_lt_two_pow
    calc m < 65536 := hlt
      _ ≤ 2 ^ j := by
        rw [show (65536 : Nat) = 2 ^ 16 from rfl]
        exact Nat.pow_le_pow_right (by omega) (by omega)

/-- The top-offset part of C7: every row above `getTopOffset mask` is
entirely empty and the row at `getTopOffset mask` is occupied. -/
theorem getTopOffset_char (mask : Nat) (hlt : mask < 65536) (hne : mask ≠ 0) :
    (∀ r, r < getTopOffset mask → ∀ c < 4, cellOccupied mask c r = false) ∧
    (∃ c < 4, cellOccupied mask c (getTopOffset mask) = true) := by
  by_cases h0 : (mask >>> 12) &&& 0xF ≠ 0
  · have htop : getTopOffset mask = 0 := by
      unfold getTopOffset
      rw [if_pos h0]
    rw [htop]
    refine ⟨fun r hr => absurd hr (by omega), ?_⟩
    exact (row_occ_iff mask 0 (by omega)).2 (by
      rw [show 12 - 4 * 0 = 12 from by omega]
      exact h0)
  · by_cases h1 : (mask >>> 8) &&& 0xF ≠ 0
    · have htop : getTopOffset mask = 1 := by
        unfold getTopOffset
        rw [if_neg h0, if_pos h1]
      rw [htop]
      constructor
      · intro r hr
        have hr0 : r = 0 := by omega
        rw [hr0]
        exact row_empty_of_nibble mask 0 (by omega) (by
          rw [show 12 - 4 * 0 = 12 from by omega]
          exact h0)
      · exact (row_occ_iff mask 1 (by omega)).2 (by
          rw [show 12 - 4 * 1 = 8 from by omega]
          exact h1)
    · by_cases h2 : (mask >>> 4) &&& 0xF ≠ 0
      · have htop : getTopOffset mask = 2 := by
          unfold getTopOffset
          rw [if_neg h0, if_neg h1, if_pos h2]
        rw [htop]
        constructor
        · intro r hr c hc
          have hr01 : r = 0 ∨ r = 1 := by omega
          rcases hr01 with hr0 | hr1
          · rw [hr0]
            exact row_empty_of_nibble mask 0 (by omega) (by
              rw [show 12 - 4 * 0 = 12 from by omega]
              exact h0) c hc
          · rw [hr1]
            exact row_empty_of_nibble mask 1 (by omega) (by
              rw [show 12 - 4 * 1 = 8 from by omega]
              exact h1) c hc
        · exact (row_occ_iff mask 2 (by omega)).2 (by
            rw [show 12 - 4 * 2 = 4 from by omega]
            exact h2)
      · by_cases h3 : (mask >>> 0) &&& 0xF ≠ 0
        · have htop : getTopOffset mask = 3 := by
            unfold getTopOffset
            rw [if_neg h0, if_neg h1, if_neg h2, if_pos h3]
          rw [htop]
          constructor
          · intro r hr c hc
            have hr012 : r = 0 ∨ r = 1 ∨ r = 2 := by omega
            rcases hr012 with hr0 | hr1 | hr2
            · rw [hr0]
              exact row_empty_of_nibble mask 0 (by omega) (by
                rw [show 12 - 4 * 0 = 12 from by omega]
                exact h0) c hc
            · rw [hr1]
              exact row_empty_of_nibble mask 1 (by omega) (by
                rw [show 12 - 4 * 1 = 8 from by omega]
                exact h1) c hc
            · rw [hr2]
              exact row_empty_of_nibble mask 2 (by omega) (by
                rw [show 12 - 4 * 2 = 4 from by omega]
                exact h2) c hc
          · exact (row_occ_iff mask 3 (by omega)).2 (by
              rw [show 12 - 4 * 3 = 0 from by omega]
              exact h3)
        · exfalso
          obtain ⟨c0, hc0, r0, hr0, hocc0⟩ := exists_cell_of_ne_zero mask hlt hne
          have hempty : cellOccupied mask c0 r0 = false := by
            have hr03 : r0 = 0 ∨ r0 = 1 ∨ r0 = 2 ∨ r0 = 3 := by omega
            rcases hr03 with h | h | h | h <;> rw [h]
            · exact row_empty_of_nibble mask 0 (by omega) (by
                rw [show 12 - 4 * 0 = 12 from by omega]
                exact h0) c0 hc0
            · exact row_empty_of_nibble mask 1 (by omega) (by
                rw [show 12 - 4 * 1 = 8 from by omega]
                exact h1) c0 hc0
            · exact row_empty_of_nibble mask 2 (by omega) (by
                rw [show 12 - 4 * 2 = 4 from by omega]
                exact h2) c0 hc0
            · exact row_empty_of_nibble mask 3 (by omega) (by
                rw [show 12 - 4 * 3 = 0 from by omega]
                exact h3) c0 hc0
          rw [hocc0] at hempty
          cases hempty

/-! ### Claim C7: fold characterisations of the column geometry -/

/-- Loop body of `findFirstNonEmptyColumn`. -/
def leftStep (mask : Nat) (columnIndex i : Nat) : Nat :=
  if mask.testBit (15 - i) then
    if columnIndex > i % 4 then i % 4 else columnIndex
  else columnIndex

theorem findFirstNonEmptyColumn_eq_fold (mask : Nat) :
    findFirstNonEmptyColumn mask = (List.range 16).foldl (leftStep mask) 4 := rfl

theorem leftStep_le (mask a i : Nat) :
    leftStep mask a i ≤ a ∧
    (mask.testBit (15 - i) = true → leftStep mask a i ≤ i % 4) := by
  unfold leftStep
  by_cases ht : mask.testBit (15 - i) = true
  · rw [if_pos ht]
    constructor
    · split <;> omega
    · intro _
      split <;> omega
  · rw [if_neg ht]
    exact ⟨Nat.le_refl a, fun h => absurd h ht⟩

theorem leftFold_le (mask : Nat) : ∀ (L : List Nat) (a : Nat),
    L.foldl (leftStep mask) a ≤ a
  | [], a => Nat.le_refl a
  | i :: L, a => by
    rw [List.foldl_cons]
    exact Nat.le_trans (leftFold_le mask L _) (leftStep_le mask a i).1

theorem leftFold_le_mem (mask : Nat) : ∀ (L : List Nat) (a i : Nat), i ∈ L →
    mask.testBit (15 - i) = true → L.foldl (leftStep mask) a ≤ i % 4
  | [], _, i, h, _ => absurd h (List.not_mem_nil i)
  | j :: L, a, i, h, hbit => by
    rw [List.foldl_cons]
    rcases List.mem_cons.1 h with heq | hL
    · subst heq
      exact Nat.le_trans (leftFold_le mask L _) ((leftStep_le mask a i).2 hbit)
    · exact leftFold_le_mem mask L _ i hL hbit

theorem leftStep_cases (mask a j : Nat) :
    leftStep mask a j = a ∨
    (mask.testBit (15 - j) = true ∧ leftStep mask a j = j % 4) := by
  unfold leftStep
  by_cases ht : mask.testBit (15 - j) = true
  · rw [if_pos ht]
    by_cases hgt : a > j % 4
    · rw [if_pos hgt]
      exact Or.inr ⟨ht, rfl⟩
    · rw [if_neg hgt]
      exact Or.inl rfl
  · rw [if_neg ht]
    exact Or.inl rfl

theorem leftFold_cases (mask : Nat) : ∀ (L : List Nat) (a : Nat),
    L.foldl (leftStep mask) a = a ∨
    ∃ i ∈ L, mask.testBit (15 - i) = true ∧ L.foldl (leftStep mask) a = i % 4
  | [], a => Or.inl rfl
  | j :: L, a => by
    rw [List.foldl_cons]
    rcases leftFold_cases mask L (leftStep mask a j) with h | ⟨i, hi, hb, he⟩
    · rcases leftStep_cases mask a j with hs | ⟨ht, hs⟩
      · exact Or.inl (h.trans hs)
      · exact Or.inr ⟨j, List.mem_cons_self j L, ht, h.trans hs⟩
    · exact Or.inr ⟨i, List.mem_cons_of_mem j hi, hb, he⟩

/-- The leftmost-column part of C7. -/
theorem findFirstNonEmptyColumn_char (mask : Nat) (hlt : mask < 65536) (hne : mask ≠ 0) :
    (∃ r < 4, cellOccupied mask (findFirstNonEmptyColumn mask) r = true) ∧
    (∀ c < 4, ∀ r < 4, cellOccupied mask c r = true → findFirstNonEmptyColumn mask ≤ c) := by
  have hmin : ∀ c < 4, ∀ r < 4, cellOccupied mask c r = true →
      findFirstNonEmptyColumn mask ≤ c := by
    intro c hc r hr hocc
    rw [findFirstNonEmptyColumn_eq_fold]
    unfold cellOccupied at hocc
    have hmem : 4 * r + c ∈ List.range 16 := by
      rw [List.mem_range]
      omega
    have hle := leftFold_le_mem mask (List.range 16) 4 (4 * r + c) hmem hocc
    rw [show (4 * r + c) % 4 = c from by omega] at hle
    exact hle
  refine ⟨?_, hmin⟩
  obtain ⟨c0, hc0, r0, hr0, hocc0⟩ := exists_cell_of_ne_zero mask hlt hne
  have hle : findFirstNonEmptyColumn mask ≤ c0 := hmin c0 hc0 r0 hr0 hocc0
  rcases leftFold_cases mask (List.range 16) 4 with h | ⟨i, hi, hb, he⟩
  · exfalso
    rw [findFirstNonEmptyColumn_eq_fold, h] at hle
    omega
  · rw [List.mem_range] at hi
    refine ⟨i / 4, by omega, ?_⟩
    rw [findFirstNonEmptyColumn_eq_fold, he]
    unfold cellOccupied
    rw [show 15 - (4 * (i / 4) + i % 4) = 15 - i from by omega]
    exact hb

/-- Loop body of `getShapeDimensions`. -/
def dimStep (mask : Nat) (p : Int × Int) (i : Nat) : Int × Int :=
  if mask.testBit i then
    ((if (i % 4 : Int) < p.1 then (i % 4 : Int) else p.1),
     (if (i % 4 : Int) > p.2 then (i % 4 : Int) else p.2))
  else p

theorem getShapeDimensions_eq_fold (mask : Nat) :
    getShapeDimensions mask =
      ((List.range 16).foldl (dimStep mask) (4, 0)).2 -
      ((List.range 16).foldl (dimStep mask) (4, 0)).1 + 1 := rfl

theorem dimStep_bounds (mask : Nat) (p : Int × Int) (i : Nat) :
    (dimStep mask p i).1 ≤ p.1 ∧ p.2 ≤ (dimStep mask p i).2 ∧
    (mask.testBit i = true →
      (dimStep mask p i).1 ≤ (i % 4 : Int) ∧ (i % 4 : Int) ≤ (dimStep mask p i).2) := by
  unfold dimStep
  by_cases ht : mask.testBit i = true
  · rw [if_pos ht]
    refine ⟨?_, ?_, fun _ => ⟨?_, ?_⟩⟩
    · show (if (i % 4 : Int) < p.1 then (i % 4 : Int) else p.1) ≤ p.1
      split <;> omega
    · show p.2 ≤ (if (i % 4 : Int) > p.2 then (i % 4 : Int) else p.2)
      split <;> omega
    · show (if (i % 4 : Int) < p.1 then (i % 4 : Int) else p.1) ≤ (i % 4 : Int)
      split <;> omega
    · show (i % 4 : Int) ≤ (if (i % 4 : Int) > p.2 then (i % 4 : Int) else p.2)
      split <;> omega
  · rw [if_neg ht]
    exact ⟨Int.le_refl _, Int.le_refl _, fun h => absurd h ht⟩

theorem dimFold_bounds (mask : Nat) : ∀ (L : List Nat) (p : Int × Int),
    (L.foldl (dimStep mask) p).1 ≤ p.1 ∧ p.2 ≤ (L.foldl (dimStep mask) p).2
  | [], p => ⟨Int.le_refl _, Int.le_refl _⟩
  | i :: L, p => by
    rw [List.foldl_cons]
    have h1 := dimFold_bounds mask L (dimStep mask p i)
    have h2 := dimStep_bounds mask p i
    exact ⟨le_trans h1.1 h2.1, le_trans h2.2.1 h1.2⟩

theorem dimFold_mem (mask : Nat) : ∀ (L : List Nat) (p : Int × Int) (i : Nat), i ∈ L →
    mask.testBit i = true →
    (L.foldl (dimStep mask) p).1 ≤ (i % 4 : Int) ∧
    (i % 4 : Int) ≤ (L.foldl (dimStep mask) p).2
  | [], _, i, h, _ => absurd h (List.not_mem_nil i)
  | j :: L, p, i, h, hbit => by
    rw [List.foldl_cons]
    rcases List.mem_cons.1 h with heq | hL
    · subst heq
      have h1 := dimFold_bounds mask L (dimStep mask p i)
      have h2 := (dimStep_bounds mask p i).2.2 hbit
      exact ⟨le_trans h1.1 h2.1, le_trans h2.2 h1.2⟩
    · exact dimFold_mem mask L _ i hL hbit

theorem dimStep_fst_cases (mask : Nat) (p : Int × Int) (j : Nat) :
    (dimStep mask p j).1 = p.1 ∨
    (mask.testBit j = true ∧ (dimStep mask p j).1 = (j % 4 : Int)) := by
  unfold dimStep
  by_cases ht : mask.testBit j = true
  · rw [if_pos ht]
    dsimp only
    by_cases hlt2 : (j % 4 : Int) < p.1
    · rw [if_pos hlt2]
      exact Or.inr ⟨ht, rfl⟩
    · rw [if_neg hlt2]
      exact Or.inl rfl
  · rw [if_neg ht]
    exact Or.inl rfl

theorem dimStep_snd_cases (mask : Nat) (p : Int × Int) (j : Nat) :
    (dimStep mask p j).2 = p.2 ∨
    (mask.testBit j = true ∧ (dimStep mask p j).2 = (j % 4 : Int)) := by
  unfold dimStep
  by_cases ht : mask.testBit j = true
  · rw [if_pos ht]
    dsimp only
    by_cases hgt2 : (j % 4 : Int) > p.2
    · rw [if_pos hgt2]
      exact Or.inr ⟨ht, rfl⟩
    · rw [if_neg hgt2]
      exact Or.inl rfl
  · rw [if_neg ht]
    exact Or.inl rfl

theorem dimFold_fst_cases (mask : Nat) : ∀ (L : List Nat) (p : Int × Int),
    (L.foldl (dimStep mask) p).1 = p.1 ∨
    ∃ i ∈ L, mask.testBit i = true ∧ (L.foldl (dimStep mask) p).1 = (i % 4 : Int)
  | [], p => Or.inl rfl
  | j :: L, p => by
    rw [List.foldl_cons]
    rcases dimFold_fst_cases mask L (dimStep mask p j) with h | ⟨i, hi, hb, he⟩
    · rcases dimStep_fst_cases mask p j with hs | ⟨ht, hs⟩
      · exact Or.inl (h.trans hs)
      · exact Or.inr ⟨j, List.mem_cons_self j L, ht, h.trans hs⟩
    · exact Or.inr ⟨i, List.mem_cons_of_mem j hi, hb, he⟩

theorem dimFold_snd_cases (mask : Nat) : ∀ (L : List Nat) (p : Int × Int),
    (L.foldl (dimStep mask) p).2 = p.2 ∨
    ∃ i ∈ L, mask.testBit i = true ∧ (L.foldl (dimStep mask) p).2 = (i % 4 : Int)
  | [], p => Or.inl rfl
  | j :: L, p => by
    rw [List.foldl_cons]
    rcases dimFold_snd_cases mask L (dimStep mask p j) with h | ⟨i, hi, hb, he⟩
    · rcases dimStep_snd_cases mask p j with hs | ⟨ht, hs⟩
      · exact Or.inl (h.trans hs)
      · exact Or.inr ⟨j, List.mem_cons_self j L, ht, h.trans hs⟩
    · exact Or.inr ⟨i, List.mem_cons_of_mem j hi, hb, he⟩

/-- The width part of C7: `getShapeDimensions` equals rightmost minus
leftmost occupied column plus one. -/
theorem getShapeDimensions_char (mask : Nat) (hlt : mask < 65536) (hne : mask ≠ 0) :
    ∃ cmin cmax : Nat, cmin < 4 ∧ cmax < 4 ∧
      (∃ r < 4, cellOccupied mask cmin r = true) ∧
      (∃ r < 4, cellOccupied mask cmax r = true) ∧
      (∀ c < 4, ∀ r < 4, cellOccupied mask c r = true → cmin ≤ c ∧ c ≤ cmax) ∧
      getShapeDimensions mask = (cmax : Int) - (cmin : Int) + 1 := by
  obtain ⟨c0, hc0, r0, hr0, hocc0⟩ := exists_cell_of_ne_zero mask hlt hne
  unfold cellOccupied at hocc0
  have hj0mem : 15 - (4 * r0 + c0) ∈ List.range 16 := by
    rw [List.mem_range]
    omega
  have hbounds0 := dimFold_mem mask (List.range 16) (4, 0) (15 - (4 * r0 + c0)) hj0mem hocc0
  have hfst : ∃ i1, i1 ∈ List.range 16 ∧ mask.testBit i1 = true ∧
      ((List.range 16).foldl (dimStep mask) (4, 0)).1 = (i1 % 4 : Int) := by
    rcases dimFold_fst_cases mask (List.range 16) (4, 0) with hf | ⟨i1, hi1, hb1, he1⟩
    · exfalso
      have hf4 : ((List.range 16).foldl (dimStep mask) (4, 0)).1 = (4 : Int) := hf
      have hb := hbounds0.1
      rw [hf4] at hb
      omega
    · exact ⟨i1, hi1, hb1, he1⟩
  have hsnd : ∃ i2, i2 ∈ List.range 16 ∧ mask.testBit i2 = true ∧
      ((List.range 16).foldl (dimStep mask) (4, 0)).2 = (i2 % 4 : Int) := by
    rcases dimFold_snd_cases mask (List.range 16) (4, 0) with hs | ⟨i2, hi2, hb2, he2⟩
    · have hs0 : ((List.range 16).foldl (dimStep mask) (4, 0)).2 = (0 : Int) := hs
      have hb := hbounds0.2
      exact ⟨15 - (4 * r0 + c0), hj0mem, hocc0, by omega⟩
    · exact ⟨i2, hi2, hb2, he2⟩
  obtain ⟨i1, hi1, hb1, he1⟩ := hfst
  obtain ⟨i2, hi2, hb2, he2⟩ := hsnd
  rw [List.mem_range] at hi1 hi2
  have hord : (i1 % 4 : Int) ≤ (i2 % 4 : Int) := by
    have h1 := hbounds0.1
    have h2 := hbounds0.2
    rw [he1] at h1
    rw [he2] at h2
    omega
  refine ⟨3 - i2 % 4, 3 - i1 % 4, by omega, by omega, ?_, ?_, ?_, ?_⟩
  · refine ⟨3 - i2 / 4, by omega, ?_⟩
    unfold cellOccupied
    rw [show 15 - (4 * (3 - i2 / 4) + (3 - i2 % 4)) = i2 from by omega]
    exact hb2
  · refine ⟨3 - i1 / 4, by omega, ?_⟩
    unfold cellOccupied
    rw [show 15 - (4 * (3 - i1 / 4) + (3 - i1 % 4)) = i1 from by omega]
    exact hb1
  · intro c hc r hr hocc
    unfold cellOccupied at hocc
    have hjmem : 15 - (4 * r + c) ∈ List.range 16 := by
      rw [List.mem_range]
      omega
    have hbj := dimFold_mem mask (List.range 16) (4, 0) (15 - (4 * r + c)) hjmem hocc
    have hbj1 := hbj.1
    have hbj2 := hbj.2
    rw [he1] at hbj1
    rw [he2] at hbj2
    omega
  · rw [getShapeDimensions_eq_fold, he1, he2]
    omega

/-- Claim C7: for every 16-bit mask, `getTopOffset` counts the entirely
empty rows above the first occupied row, `findFirstNonEmptyColumn` is the
leftmost occupied column (and `4` on the empty mask), and
`getShapeDimensions` is rightmost minus leftmost occupied column plus one —
all under the engine's bit-to-cell mapping `bit 15-i ↔ cell (i % 4, i / 4)`
captured by `cellOccupied`. -/
theorem claim7_geometry (mask : Nat) (hlt : mask < 65536) (hne : mask ≠ 0) :
    ((∀ r, r < getTopOffset mask → ∀ c < 4, cellOccupied mask c r = false) ∧
     (∃ c < 4, cellOccupied mask c (getTopOffset mask) = true)) ∧
    ((∃ r < 4, cellOccupied mask (findFirstNonEmptyColumn mask) r = true) ∧
     (∀ c < 4, ∀ r < 4, cellOccupied mask c r = true → findFirstNonEmptyColumn mask ≤ c)) ∧
    (∃ cmin cmax : Nat, cmin < 4 ∧ cmax < 4 ∧
      (∃ r < 4, cellOccupied mask cmin r = true) ∧
      (∃ r < 4, cellOccupied mask cmax r = true) ∧
      (∀ c < 4, ∀ r < 4, cellOccupied mask c r = true → cmin ≤ c ∧ c ≤ cmax) ∧
      getShapeDimensions mask = (cmax : Int) - (cmin : Int) + 1) ∧
    findFirstNonEmptyColumn 0 = 4 :=
  ⟨getTopOffset_char mask hlt hne, findFirstNonEmptyColumn_char mask hlt hne,
   getShapeDimensions_char mask hlt hne, by decide⟩

/-! ### Concrete states used by the witnesses -/

/-- A board with a single `FixedState` cell at row 1, column 0. -/
def boardW1 : Board := fun y x => if y.val = 1 ∧ x.val = 0 then FixedState else EmptyState

/-- The all-empty board. -/
def boardEmpty : Board := fun _ _ => EmptyState

/-- Freshly spawned I-piece over `boardW1`: the fixed cell blocks both the
first gravity step and every wall-kick position of a rotation. -/
def gameW1 : Game := { piece := newPieceP 0, board := boardW1, cancelled := false }

/-- Freshly spawned I-piece over the empty board. -/
def gameW2 : Game := { piece := newPieceP 0, board := boardEmpty, cancelled := false }

/-- Board whose only full row is the bottom row 19. -/
def boardFull19 : Board := fun y _ => if y.val = 19 then FixedState else EmptyState

/-- Board with full rows 18 and 19 and one falling cell on row 17. -/
def boardTwoFull : Board := fun y x =>
  if 18 ≤ y.val then FixedState
  else if y.val = 17 ∧ x.val = 0 then FallingState else EmptyState

/-- Witness for C5: no-op on the empty board; single clear at row 19 of
`boardFull19`; double clear of the adjacent full rows 18, 19 of
`boardTwoFull`, whose stack height drops by exactly 2. -/
theorem claim5_witness :
    removeFullLines boardEmpty = boardEmpty ∧
    (∀ (j : Fin gameGridHeight) (xx : Fin gameGridWidth),
      removeFullLines boardFull19 j xx =
        if j.val = 0 then EmptyState
        else if j.val ≤ 19 then rowAt boardFull19 (j.val - 1) xx else boardFull19 j xx) ∧
    (∀ (j : Fin gameGridHeight) (xx : Fin gameGridWidth),
      removeFullLines boardTwoFull j xx =
        if j.val ≤ 1 then EmptyState
        else if j.val ≤ 19 then rowAt boardTwoFull (j.val - 2) xx else boardTwoFull j xx) ∧
    stackHeight (removeFullLines boardTwoFull) + 2 = stackHeight boardTwoFull :=
  ⟨(claim5_clearFullRows_cases boardEmpty 0).1 (by decide),
   (claim5_clearFullRows_cases boardFull19 19).2.1 (by decide) (by decide) (by decide),
   ((claim5_clearFullRows_cases boardTwoFull 18).2.2 (by decide) (by decide) (by decide)
      (by decide)).1,
   ((claim5_clearFullRows_cases boardTwoFull 18).2.2 (by decide) (by decide) (by decide)
      (by decide)).2⟩

/-- Witness for C7 at the T-piece mask `0x4C40` (`shapes[2][0]`). -/
theorem claim7_witness :
    ((∀ r, r < getTopOffset 0x4C40 → ∀ c < 4, cellOccupied 0x4C40 c r = false) ∧
     (∃ c < 4, cellOccupied 0x4C40 c (getTopOffset 0x4C40) = true)) ∧
    ((∃ r < 4, cellOccupied 0x4C40 (findFirstNonEmptyColumn 0x4C40) r = true) ∧
     (∀ c < 4, ∀ r < 4, cellOccupied 0x4C40 c r = true →
        findFirstNonEmptyColumn 0x4C40 ≤ c)) ∧
    (∃ cmin cmax : Nat, cmin < 4 ∧ cmax < 4 ∧
      (∃ r < 4, cellOccupied 0x4C40 cmin r = true) ∧
      (∃ r < 4, cellOccupied 0x4C40 cmax r = true) ∧
      (∀ c < 4, ∀ r < 4, cellOccupied 0x4C40 c r = true → cmin ≤ c ∧ c ≤ cmax) ∧
      getShapeDimensions 0x4C40 = (cmax : Int) - (cmin : Int) + 1) ∧
    findFirstNonEmptyColumn 0 = 4 :=
  claim7_geometry 0x4C40 (by decide) (by decide)

/-- Witness for C3 at `gameW1`: the spawn row collides downward immediately,
so `moveDown` cancels the game and changes nothing else. -/
theorem claim3_witness :
    moveDown gameW1 0 = { gameW1 with cancelled := true } ∧
    (moveDown gameW1 0).board = gameW1.board ∧
    (moveDown gameW1 0).piece = gameW1.piece ∧
    (moveDown gameW1 0).cancelled = true :=
  claim3_moveDown_gameOver gameW1 0 (by decide) (by decide)

/-- Witness for C9 at `gameW2`: the move handlers leave the piece committed,
and `moveDown` does as well since the spawn position is free. -/
theorem claim9_witness :
    committed (moveLeft gameW2) ∧ committed (moveRight gameW2) ∧
    committed (rotate gameW2) ∧ committed (moveDown gameW2 0) :=
  ⟨(claim9_handlers_committed gameW2 0).1, (claim9_handlers_committed gameW2 0).2.1,
   (claim9_handlers_committed gameW2 0).2.2.1,
   (claim9_handlers_committed gameW2 0).2.2.2 (by decide)⟩

/-- Witness for C2 at `gameW1`: rotating the spawned I-piece fails every
wall-kick position (the fixed cell at (0,1) blocks the only in-bounds
candidate column), and `rotate` degenerates to the shared `tick` pass. -/
theorem claim2_witness :
    rotate gameW1 = tick gameW1 ∧ (rotate gameW1).piece.pos = gameW1.piece.pos ∧
    (rotate gameW1).piece.x = gameW1.piece.x ∧ (rotate gameW1).piece.y = gameW1.piece.y :=
  claim2_rotate_fail_restores gameW1 ⟨by decide, by decide, by decide, by decide⟩ (by decide)

/-- Witness for C6 at `gameW2`: the freshly spawned piece satisfies the
in-bounds precondition and the bounds are preserved by both moves. -/
theorem claim6_witness :
    0 ≤ (moveLeft gameW2).piece.x +
        (findFirstNonEmptyColumn (shapesAt gameW2.piece.shape gameW2.piece.pos) : Int) ∧
    (moveRight gameW2).piece.x +
        (findFirstNonEmptyColumn (shapesAt gameW2.piece.shape gameW2.piece.pos) : Int) +
        getShapeDimensions (shapesAt gameW2.piece.shape gameW2.piece.pos) ≤ (gameGridWidth : Int) ∧
    (¬(0 ≤ gameW2.piece.x +
          (findFirstNonEmptyColumn (shapesAt gameW2.piece.shape gameW2.piece.pos) : Int) - 1 ∧
        gameHasCollision gameW2 (gameW2.piece.x - 1) gameW2.piece.y gameW2.piece.pos = false) →
      (moveLeft gameW2).piece.x = gameW2.piece.x) ∧
    (¬(gameW2.piece.x + (findFirstNonEmptyColumn (shapesAt gameW2.piece.shape gameW2.piece.pos) : Int) +
          getShapeDimensions (shapesAt gameW2.piece.shape gameW2.piece.pos) < (gameGridWidth : Int) ∧
        gameHasCollision gameW2 (gameW2.piece.x + 1) gameW2.piece.y gameW2.piece.pos = false) →
      (moveRight gameW2).piece.x = gameW2.piece.x) :=
  claim6_move_bounds gameW2 (by decide) (by decide)

end Tetris
